import Mathlib

/-!
Verification development for the `rename_pdfs_title_year.py` preview-and-apply
renaming pipeline.  Python strings are modelled as `List Char` (`Str`), paths
as a directory (list of name components) plus a file name, machine-external
collaborators (pypdf, the filesystem, the Crossref HTTP registry, the wall
clock) as explicit oracle parameters, and Python exceptions as `Option`
results.  Only the ASCII fragment of Python's Unicode-aware character classes
is modelled where the distinction is irrelevant to the claims.
-/

set_option maxRecDepth 4096

abbrev Str := List Char

/-- Python whitespace characters: the set matched by `\s` in `re` and stripped
by `str.strip()` (common code points). -/
def pySpaceChars : List Char :=
  [' ', '\t', '\n', '\r', '\x0b', '\x0c',
   '\x1c', '\x1d', '\x1e', '\x1f', '\u0085', '\u00a0',
   '\u1680', '\u2000', '\u2001', '\u2002', '\u2003', '\u2004', '\u2005',
   '\u2006', '\u2007', '\u2008', '\u2009', '\u200a',
   '\u2028', '\u2029', '\u202f', '\u205f', '\u3000']

def isPySpace (c : Char) : Bool := pySpaceChars.contains c

/-- Source line 22: `INVALID_CHARS = r'<>:"/\\|?*'`. -/
def INVALID_CHARS : List Char := ['<', '>', ':', '"', '/', '\\', '|', '?', '*']

/-- `str.translate` table of source line 42: each invalid character becomes
an underscore. -/
def translOne (c : Char) : Char := if INVALID_CHARS.contains c then '_' else c

/-- `re.sub(r"\s+", " ", s)`: every maximal run of whitespace becomes a single
space.  The flag records whether the previous character was whitespace. -/
def collapseWsAux : Bool → Str → Str
  | _, [] => []
  | prevSpace, c :: cs =>
    if isPySpace c then
      if prevSpace then collapseWsAux true cs
      else ' ' :: collapseWsAux true cs
    else c :: collapseWsAux false cs

def collapseWs (s : Str) : Str := collapseWsAux false s

/-- `str.rstrip` with an arbitrary character predicate. -/
def dropWhileRight (p : Char → Bool) (l : Str) : Str :=
  (l.reverse.dropWhile p).reverse

/-- `str.strip` / `str.lstrip`+`str.rstrip` with a character predicate. -/
def pyStrip (p : Char → Bool) (l : Str) : Str :=
  dropWhileRight p (l.dropWhile p)

/-- The character set of `rstrip(". ")` at source line 43. -/
def isDotSpace (c : Char) : Bool := c == '.' || c == ' '

def nulChar : Char := Char.ofNat 0

/-- Source lines 40-45, `sanitize_filename`:
collapse whitespace and strip, replace invalid characters with `_`,
strip trailing dots/spaces then whitespace, remove NUL bytes then strip,
and substitute `"untitled"` for an empty result. -/
def sanitize_filename (s : Str) : Str :=
  let s1 := pyStrip isPySpace (collapseWs s)
  let s2 := s1.map translOne
  let s3 := pyStrip isPySpace (dropWhileRight isDotSpace s2)
  let s4 := pyStrip isPySpace (s3.filter (fun c => !(c == nulChar)))
  if s4.isEmpty then ("untitled").data else s4

/-- Source lines 48-53, `clamp_filename`.  `max 1 (max_len - suffix.length)`
over `Nat` agrees with Python's `max(1, max_len - len(suffix))` for
non-negative `max_len`. -/
def clamp_filename (stem : Str) (suffix : Str) (max_len : Nat) : Str :=
  let max_stem_len := max 1 (max_len - suffix.length)
  let stem1 := pyStrip isPySpace stem
  let stem2 :=
    if max_stem_len < stem1.length then dropWhileRight isPySpace (stem1.take max_stem_len)
    else stem1
  stem2 ++ suffix

/-- Rendering of a Python `int` (used by the f-strings at source lines 159-160). -/
def intToStr (n : Int) : Str := (toString n).data

/-- Python truthiness of an `Optional[str]`: `None` and `""` are falsy. -/
def truthyOptStr : Option Str → Bool
  | none => false
  | some s => !s.isEmpty

/-- Python truthiness of an `Optional[int]`: `None` and `0` are falsy. -/
def truthyOptInt : Option Int → Bool
  | none => false
  | some n => !(n == 0)

/-- `pathlib` name splitting: `suffix` is the part from the last dot on,
provided that dot is neither the first nor the last character; otherwise the
suffix is empty (`Path("a.b.c").suffix == ".c"`, `Path(".bashrc").suffix == ""`). -/
def splitName (n : Str) : Str × Str :=
  match n.reverse.findIdx? (fun c => c == '.') with
  | none => (n, [])
  | some j =>
    let i := n.length - 1 - j
    if 0 < i ∧ i < n.length - 1 then (n.take i, n.drop i) else (n, [])

/-- The numbered collision-avoidance name `f"{stem} ({i}){suffix}"`
(source lines 62 and 75). -/
def numberedName (stem : Str) (suffix : Str) (i : Nat) : Str :=
  stem ++ (" (").data ++ (toString i).data ++ (")").data ++ suffix

/-- ASCII fragment of the `\w` word-character class used by the `\b`
boundaries of `YEAR_RE` (source line 24). -/
def isWordChar (c : Char) : Bool := c.isAlphanum || c == '_'

/-- Do the four characters match `19\d{2}|20\d{2}`? -/
def yearDigitsOk (c1 c2 c3 c4 : Char) : Bool :=
  ((c1 == '1' && c2 == '9') || (c1 == '2' && c2 == '0')) && c3.isDigit && c4.isDigit

/-- Numeric value of the four matched digit characters. -/
def yearValOf (c1 c2 c3 c4 : Char) : Int :=
  Int.ofNat ((c1.toNat - '0'.toNat) * 1000 + (c2.toNat - '0'.toNat) * 100 +
    (c3.toNat - '0'.toNat) * 10 + (c4.toNat - '0'.toNat))

/-- Word boundary before a match: the previous character (if any) is not a
word character. -/
def prevOk : Option Char → Bool
  | none => true
  | some c => !isWordChar c

/-- Word boundary after a match: the following character (if any) is not a
word character. -/
def nextOk : Str → Bool
  | [] => true
  | c :: _ => !isWordChar c

/-- `YEAR_RE.findall` (source lines 24 and 123): scan left to right; at each
position a match needs a word boundary on each side and the digit shape.
After a match the scan resumes past it (matches can never overlap, because
the character before a match must be a non-word character while every
character of a match is a digit).  `prev` is the character preceding the
current position, `none` at the very start. -/
def yearScan : Option Char → Str → List Int
  | _, [] => []
  | prev, c1 :: c2 :: c3 :: c4 :: rest4 =>
    if prevOk prev && yearDigitsOk c1 c2 c3 c4 && nextOk rest4 then
      yearValOf c1 c2 c3 c4 :: yearScan (some c4) rest4
    else
      yearScan (some c1) (c2 :: c3 :: c4 :: rest4)
  | _, c1 :: rest => yearScan (some c1) rest

/-- Python `max` over a non-empty list. -/
def pyMax (a : Int) (l : List Int) : Int := l.foldl max a

/-- Source lines 120-131, `extract_year_from_text`.  The wall clock read
`datetime.now().year` is the explicit parameter `currentYear`. -/
def extract_year_from_text (currentYear : Int) (text : Str) : Option Int :=
  if text.isEmpty then none
  else
    let years := yearScan none text
    match years with
    | [] => none
    | _ =>
      let kept := years.filter (fun y => decide (1800 < y) && decide (y ≤ currentYear + 1))
      match kept with
      | [] => none
      | k :: ks => some (pyMax k ks)

/-- Character class `[-._;()/:A-Z0-9]` of `DOI_RE` (source line 23) under
`re.IGNORECASE` (ASCII fragment). -/
def isDoiChar (c : Char) : Bool :=
  c.isAlpha || c.isDigit || ("-._;()/:").data.contains c

/-- One attempted match of `DOI_RE` at the current position: `10.` then 4-9
digits, `/`, then a non-empty greedy run of allowed characters.  Backtracking
over `\d{4,9}` never helps: shortening the digit run leaves a digit (not `/`)
as the next character, so the match succeeds exactly when the full digit run
has length 4-9 and is followed by `/`. -/
def doiMatchHere (s : Str) : Option Str :=
  match s with
  | '1' :: '0' :: '.' :: rest =>
    let ds := rest.takeWhile Char.isDigit
    if 4 ≤ ds.length ∧ ds.length ≤ 9 then
      match rest.drop ds.length with
      | '/' :: tail =>
        let sfx := tail.takeWhile isDoiChar
        if sfx.isEmpty then none
        else some ('1' :: '0' :: '.' :: (ds ++ '/' :: sfx))
      | _ => none
    else none
  | _ => none

/-- `DOI_RE.search`: the leftmost match. -/
def doiScan : Str → Option Str
  | [] => none
  | c :: cs =>
    match doiMatchHere (c :: cs) with
    | some m => some m
    | none => doiScan cs

/-- Source lines 110-117, `extract_doi_from_text`: first `DOI_RE` match with
trailing `.),;` punctuation stripped. -/
def extract_doi_from_text (text : Str) : Option Str :=
  if text.isEmpty then none
  else
    match doiScan text with
    | none => none
    | some m => some (dropWhileRight (fun c => (".),;").data.contains c) m)

/-- Rejection list of source line 88. -/
def badTitleWords : List Str :=
  [("microsoft word").data, ("untitled").data, ("doi").data, ("title").data]

/-- ASCII fragment of `str.lower`. -/
def pyLower (s : Str) : Str := s.map Char.toLower

/-- Python `needle in hay` substring test. -/
def containsSub (hay needle : Str) : Bool :=
  hay.tails.any (fun t => needle.isPrefixOf t)

/-- Source lines 82-93, `extract_title_from_metadata`: the pypdf metadata
read is the external collaborator, so its result is the parameter `rawTitle`
(`none` covers a missing/empty/unreadable title, whose truthiness check at
line 86 fails, and any pypdf exception).  The accepted title is the stripped
string, length at least 8, containing no rejected word case-insensitively. -/
def extract_title_from_metadata (rawTitle : Option Str) : Option Str :=
  match rawTitle with
  | none => none
  | some raw =>
    let t := pyStrip isPySpace raw
    if 8 ≤ t.length ∧ badTitleWords.all (fun b => !containsSub (pyLower t) b) then
      some t
    else none

/-- A nested `date-parts` entry of a Crossref date field: a list of rows,
each row either a JSON list (of optional-integer cells; `none` cells stand
for non-integer JSON values) or some non-list JSON value (`none`). -/
abbrev CRDateField := Option (List (Option (List (Option Int))))

/-- The `message` object of a 200 Crossref response, restricted to the
fields the source reads: the `title` array and the four date fields. -/
structure CrossrefMsg where
  title : List Str
  issued : CRDateField
  published_print : CRDateField
  published_online : CRDateField
  created : CRDateField

/-- Outcome of the `requests.get` call: a raised network exception, or a
response with a status code and a body (`none` body = `r.json()` raises). -/
inductive CrossrefResp
  | netError
  | resp (status : Nat) (body : Option CrossrefMsg)

/-- The year-selection loop of source lines 143-151: first field whose
`date-parts` is a non-empty list whose first row is a non-empty list; take
that row's first cell if it is an `int`, otherwise keep looking. -/
def crossrefYearFrom : List CRDateField → Option Int
  | [] => none
  | f :: rest =>
    match f with
    | some (some (y :: _) :: _) =>
      match y with
      | some n => some n
      | none => crossrefYearFrom rest
    | _ => crossrefYearFrom rest

/-- `title_list[0].strip() if title_list else None` (source line 142). -/
def crossrefTitle : List Str → Option Str
  | [] => none
  | t :: _ => some (pyStrip isPySpace t)

/-- Source lines 134-152, `crossref_lookup`.  A raised exception (network
error, or malformed JSON on a 200 response) is `none`; a normal return is
`some (title?, year?)`.  A non-200 status returns `(None, None)` before the
body is ever parsed. -/
def crossref_lookup : CrossrefResp → Option (Option Str × Option Int)
  | CrossrefResp.netError => none
  | CrossrefResp.resp status body =>
    if status ≠ 200 then some (none, none)
    else
      match body with
      | none => none
      | some msg =>
        some (crossrefTitle msg.title,
          crossrefYearFrom
            [msg.issued, msg.published_print, msg.published_online, msg.created])

/-- Source lines 155-161, `build_new_stem`.  `if year:` is Python truthiness
(`None` and `0` are falsy); `style == "prefix"` selects `f"{year} - {title}"`,
anything else `f"{title} ({year})"`. -/
def build_new_stem (title : Str) (year : Option Int) (style : Str) : Str :=
  let t := sanitize_filename title
  match year with
  | some y =>
    if y ≠ 0 then
      if style = ("prefix").data then intToStr y ++ (" - ").data ++ t
      else t ++ (" (").data ++ intToStr y ++ (")").data
    else t
  | none => t

/-- A directory, as its list of path components. -/
abbrev Dir := List Str

/-- A `pathlib.Path` to a file: its parent directory and its name. -/
structure PPath where
  dir : Dir
  name : Str
deriving DecidableEq

/-- One input PDF.  The pypdf reads are external collaborators, so the file
carries their results: `rawTitle` is the embedded metadata title when
`md and md.title` is truthy (`none` also covers unreadable files), `text`
is the concatenated first-pages text of `extract_text_first_pages` (empty
on whole-file failure, failed pages contributing nothing). -/
structure PdfFile where
  path : PPath
  rawTitle : Option Str
  text : Str
deriving DecidableEq

/-- Source lines 27-37, the `PreviewItem` dataclass. -/
structure PreviewItem where
  pdf : PPath
  old_name : Str
  new_path : Option PPath
  doi : Option Str
  title : Option Str
  year : Option Int
  status : Str
  reason : Str
  apply : Bool
deriving DecidableEq

/-- Observable effects of one planning run: a Crossref lookup for a DOI
(the `requests.get` of `crossref_lookup`) and the rate-limiting
`time.sleep` of source line 220. -/
inductive Ev
  | lookup (doi : Str)
  | sleep
deriving DecidableEq

/-- First value bound to a key in an association list. -/
def assocFind {α β : Type} [DecidableEq α] (k : α) : List (α × β) → Option β
  | [] => none
  | (k', v) :: rest => if k' = k then some v else assocFind k rest

/-- Replace the first binding of a key (or add one). -/
def assocUpd {α β : Type} [DecidableEq α] (k : α) (v : β) : List (α × β) → List (α × β)
  | [] => [(k, v)]
  | (k', v') :: rest => if k' = k then (k, v) :: rest else (k', v') :: assocUpd k v rest

/-- Source lines 68-79, `unique_path_with_reserved`: an unreserved name is
reserved and returned as-is; otherwise numbered variants `" (2)"`, `" (3)"`,
... are tried.  The unbounded `while` always terminates within
`reserved.length + 1` attempts (the numbered names are pairwise distinct),
so the search is over that range; its fallback arm is unreachable. -/
def unique_path_with_reserved (p : PPath) (reserved : List Str) : PPath × List Str :=
  if p.name ∈ reserved then
    let sp := splitName p.name
    let i :=
      match (List.range (reserved.length + 1)).find?
          (fun k => decide (numberedName sp.1 sp.2 (k + 2) ∉ reserved)) with
      | some k => k + 2
      | none => reserved.length + 2
    let n := numberedName sp.1 sp.2 i
    (⟨p.dir, n⟩, n :: reserved)
  else (p, p.name :: reserved)

/-- Source lines 187-193, `get_reserved`: the per-directory reserved-name
set, lazily seeded from a directory snapshot.  The `iterdir` snapshot is the
external collaborator `listing` (an unreadable directory yields `[]`, the
`except` arm). -/
def get_reserved (listing : Dir → List Str) (rbd : List (Dir × List Str)) (d : Dir) :
    List Str × List (Dir × List Str) :=
  match assocFind d rbd with
  | some s => (s, rbd)
  | none => (listing d, (d, listing d) :: rbd)

/-- Configuration of one planning run.  `pages`, `sleep`, `timeout` and
`user_agent` only parametrise external collaborators (text extraction depth,
sleep duration, the HTTP request) and are absorbed into the `PdfFile` inputs,
the `Ev.sleep` event and the `oracle`; the wall clock is `currentYear`. -/
structure PrevCfg where
  folder : Dir
  maxlen : Nat
  style : Str
  no_crossref : Bool
  unmatched_dir : Str
  currentYear : Int
  oracle : Str → CrossrefResp
  listing : Dir → List Str

/-- The `try/except` of source lines 215-218: a raised `crossref_lookup`
exception degrades to `(None, None)` inside the planner. -/
def resolve_lookup (oracle : Str → CrossrefResp) (d : Str) : Option Str × Option Int :=
  match crossref_lookup (oracle d) with
  | none => (none, none)
  | some v => v

/-- The Crossref stage of the planning loop (source lines 210-224 up to the
cache): given the extracted DOI, the override pair `(cf_title, cf_year)`,
the updated cache and the emitted events.  `if doi and not no_crossref` is
Python truthiness; when no lookup happens the override pair is
`(None, None)`, which the subsequent truthiness checks reject. -/
def lookupStage (cfg : PrevCfg) (doi : Option Str)
    (cache : List (Str × (Option Str × Option Int))) :
    (Option Str × Option Int) × List (Str × (Option Str × Option Int)) × List Ev :=
  match doi with
  | some d =>
    if !d.isEmpty && !cfg.no_crossref then
      match assocFind d cache with
      | some v => (v, cache, [])
      | none =>
        let v := resolve_lookup cfg.oracle d
        (v, (d, v) :: cache, [Ev.lookup d, Ev.sleep])
    else ((none, none), cache, [])
  | none => ((none, none), cache, [])

/-- `if cf_title: title = cf_title` (source lines 221-222): a truthy resolved
title overrides the metadata title. -/
def overrideTitle (cf1 : Option Str) (title0 : Option Str) : Option Str :=
  if truthyOptStr cf1 then cf1 else title0

/-- `year = None; if cf_year: year = cf_year; if not year and year_guess:
year = year_guess` (source lines 210, 223-227). -/
def overrideYear (cf2 : Option Int) (year_guess : Option Int) : Option Int :=
  let year1 : Option Int := if truthyOptInt cf2 then cf2 else none
  if !truthyOptInt year1 && truthyOptInt year_guess then year_guess else year1

/-- The body of the planning loop (source lines 204-298) for one file:
returns the decision record, the updated DOI cache, the updated
reserved-name sets and the emitted lookup/sleep events. -/
def previewStep (cfg : PrevCfg) (f : PdfFile)
    (cache : List (Str × (Option Str × Option Int)))
    (rbd : List (Dir × List Str)) :
    PreviewItem × List (Str × (Option Str × Option Int)) × List (Dir × List Str) × List Ev :=
  let old_name := f.path.name
  let title0 := extract_title_from_metadata f.rawTitle
  let doi := extract_doi_from_text f.text
  let year_guess := extract_year_from_text cfg.currentYear f.text
  let step1 := lookupStage cfg doi cache
  let cache1 := step1.2.1
  let evs := step1.2.2
  let title1 := overrideTitle step1.1.1 title0
  let year2 := overrideYear step1.1.2 year_guess
  if !truthyOptStr title1 then
    match (if cfg.unmatched_dir.isEmpty then none
           else some (cfg.folder ++ [cfg.unmatched_dir]) : Option Dir) with
    | some uroot =>
      let rr := get_reserved cfg.listing rbd uroot
      let dr := unique_path_with_reserved ⟨uroot, f.path.name⟩ rr.1
      (⟨f.path, old_name, some dr.1, doi, none, year2,
          ("move").data, ("no title found").data, true⟩,
       cache1, assocUpd uroot dr.2 rr.2, evs)
    | none =>
      (⟨f.path, old_name, none, doi, none, year2,
          ("skip").data, ("no title found").data, false⟩,
       cache1, rbd, evs)
  else
    let new_stem := build_new_stem (title1.getD []) year2 cfg.style
    let new_name := clamp_filename new_stem (".pdf").data cfg.maxlen
    let rr := get_reserved cfg.listing rbd f.path.dir
    let npr := unique_path_with_reserved ⟨f.path.dir, new_name⟩ rr.1
    if npr.1.name = old_name then
      (⟨f.path, old_name, some npr.1, doi, title1, year2,
          ("ok").data, ("already good name").data, false⟩,
       cache1, assocUpd f.path.dir npr.2 rr.2, evs)
    else
      (⟨f.path, old_name, some npr.1, doi, title1, year2,
          ("rename").data, ("ready").data, true⟩,
       cache1, assocUpd f.path.dir npr.2 rr.2, evs)

/-- The planning loop: the cancellation flag is checked before each file
(1-based index, mirroring `enumerate(pdfs, 1)`); cancellation leaves the
remaining files unprocessed.  Progress and per-item callbacks are UI
collaborators without pipeline effect and are omitted. -/
def computeLoop (cfg : PrevCfg) (cancel : Nat → Bool) :
    Nat → List (Str × (Option Str × Option Int)) → List (Dir × List Str) →
    List PdfFile → List PreviewItem × List Ev
  | _, _, _, [] => ([], [])
  | idx, cache, rbd, f :: rest =>
    if cancel idx then ([], [])
    else
      let r := previewStep cfg f cache rbd
      let tailr := computeLoop cfg cancel (idx + 1) r.2.1 r.2.2.1 rest
      (r.1 :: tailr.1, r.2.2.2 ++ tailr.2)

/-- Source lines 169-300, `compute_preview`: fresh per-run DOI cache and
reserved-name map. -/
def compute_preview (cfg : PrevCfg) (cancel : Nat → Bool) (pdfs : List PdfFile) :
    List PreviewItem × List Ev :=
  computeLoop cfg cancel 1 [] [] pdfs

/-- Filesystem mutations performed by the Apply Engine: the
`mkdir(parents=True, exist_ok=True)` of source line 327 and the
`Path.rename` of line 331. -/
inductive FSOp
  | mkdirp (d : Dir)
  | rename (src dst : PPath)
deriving DecidableEq

/-- Snapshot of the filesystem: the set of existing files. -/
structure FS where
  files : List PPath
deriving DecidableEq

/-- `Path.exists()`. -/
def FS.existsP (fs : FS) (p : PPath) : Bool := decide (p ∈ fs.files)

/-- Source lines 56-65, `unique_path`: last-resort disambiguation against the
live filesystem at apply time.  As for `unique_path_with_reserved`, the
`while` loop terminates within `fs.files.length + 1` attempts, so the search
is over that range with an unreachable fallback arm. -/
def unique_path (fs : FS) (path : PPath) : PPath :=
  if !fs.existsP path then path
  else
    let sp := splitName path.name
    let i :=
      match (List.range (fs.files.length + 1)).find?
          (fun k => !fs.existsP ⟨path.dir, numberedName sp.1 sp.2 (k + 2)⟩) with
      | some k => k + 2
      | none => fs.files.length + 2
    ⟨path.dir, numberedName sp.1 sp.2 i⟩

/-- The body of the apply loop (source lines 318-338) for one item: the
increments of the `renamed` and `skipped` counters, the filesystem mutations
performed, and the resulting filesystem.  A raised filesystem error anywhere
in the `try` block is the oracle `renameErr` on the source path and the
disambiguated target; it is caught, logged and counted as skipped.  Log
lines are UI collaborators and are not modelled. -/
def applyStep (dry_run : Bool) (renameErr : PPath → PPath → Bool)
    (item : PreviewItem) (fs : FS) : Nat × Nat × List FSOp × FS :=
  match item.new_path with
  | none => (0, 1, [], fs)
  | some np =>
    if !item.apply then (0, 1, [], fs)
    else if dry_run then (1, 0, [], fs)
    else
      let target := if fs.existsP np then unique_path fs np else np
      if renameErr item.pdf target then (0, 1, [], fs)
      else
        (1, 0, [FSOp.mkdirp np.dir, FSOp.rename item.pdf target],
         ⟨target :: fs.files.erase item.pdf⟩)

/-- The apply loop with its per-item cancellation check (1-based index,
`enumerate(items, 1)`); cancellation preserves the counts accumulated so
far. -/
def applyLoop (dry_run : Bool) (renameErr : PPath → PPath → Bool) (cancel : Nat → Bool) :
    Nat → List PreviewItem → FS → (Nat × Nat) × List FSOp × FS
  | _, [], fs => ((0, 0), [], fs)
  | idx, it :: rest, fs =>
    if cancel idx then ((0, 0), [], fs)
    else
      let r := applyStep dry_run renameErr it fs
      let t := applyLoop dry_run renameErr cancel (idx + 1) rest r.2.2.2
      ((r.1 + t.1.1, r.2.1 + t.1.2), r.2.2.1 ++ t.2.1, t.2.2)

/-- Source lines 303-339, `apply_changes`: returns `(renamed, skipped)`, the
mutation trace and the final filesystem. -/
def apply_changes (dry_run : Bool) (renameErr : PPath → PPath → Bool)
    (cancel : Nat → Bool) (items : List PreviewItem) (fs : FS) :
    (Nat × Nat) × List FSOp × FS :=
  applyLoop dry_run renameErr cancel 1 items fs

/-- CLI arguments after `argparse` (source lines 829-845): `folder` is the
optional positional argument (`nargs="?"`, default `None`).  `pages`,
`sleep` and `timeout` only parametrise external collaborators and are
omitted as in `PrevCfg`. -/
structure Args where
  folder : Option Str
  gui : Bool
  recursive : Bool
  dry_run : Bool
  maxlen : Nat
  style : Str
  no_crossref : Bool
  unmatched_dir : Str

/-- The external world the CLI runs against. -/
structure Env where
  resolvePath : Str → Dir
  dirOk : Dir → Bool
  pdfsIn : Dir → Bool → List PdfFile
  listing : Dir → List Str
  oracle : Str → CrossrefResp
  fs : FS
  renameErr : PPath → PPath → Bool
  currentYear : Int

/-- Result of one `main()` invocation. -/
inductive MainOutcome
  | launchGui
  | exitFail (code : Nat) (msg : Str)
  | finished (renamed skipped : Nat) (ops : List FSOp)
deriving DecidableEq

def isExitFail : MainOutcome → Bool
  | MainOutcome.exitFail _ _ => true
  | _ => false

/-- Rendering of an absolute resolved `Path` for the error f-string. -/
def renderDir (d : Dir) : Str := d.foldl (fun acc comp => acc ++ '/' :: comp) []

/-- Source lines 342-380, `run_cli`: `raise SystemExit(f"Folder not found:
{folder}")` when the resolved folder does not exist or is not a directory
(`SystemExit` with a string message exits with status 1), before any file is
read or renamed; otherwise plan then apply with no cancellation. -/
def run_cli (args : Args) (fpath : Str) (env : Env) : MainOutcome :=
  let folder := env.resolvePath fpath
  if !env.dirOk folder then
    MainOutcome.exitFail 1 (("Folder not found: ").data ++ renderDir folder)
  else
    let pdfs := env.pdfsIn folder args.recursive
    let cfg : PrevCfg :=
      ⟨folder, args.maxlen, args.style, args.no_crossref, args.unmatched_dir,
       env.currentYear, env.oracle, env.listing⟩
    let items := (compute_preview cfg (fun _ => false) pdfs).1
    let r := apply_changes args.dry_run env.renameErr (fun _ => false) items env.fs
    MainOutcome.finished r.1.1 r.1.2 r.2.1

/-- Source lines 829-850, `main`: `if args.gui or not args.folder:
run_gui()` — a missing (or empty) folder argument launches the GUI;
otherwise the CLI path runs. -/
def pymain (args : Args) (env : Env) : MainOutcome :=
  if args.gui || !truthyOptStr args.folder then MainOutcome.launchGui
  else run_cli args (args.folder.getD []) env

/-- Word boundary to the left of a match preceded by `pre` within a suffix
whose own predecessor was `prev`. -/
def boundBefore (prev : Option Char) (pre : Str) : Bool :=
  match pre.getLast? with
  | some c => !isWordChar c
  | none => prevOk prev

/-- A year candidate of claim C6 inside the suffix `t` whose predecessor
character is `prev`: a decomposition around four characters matching
`19\d{2}|20\d{2}` with word boundaries on both sides. -/
def candIn (prev : Option Char) (t : Str) (y : Int) : Prop :=
  ∃ pre c1 c2 c3 c4 post,
    t = pre ++ c1 :: c2 :: c3 :: c4 :: post ∧
    boundBefore prev pre = true ∧ nextOk post = true ∧
    yearDigitsOk c1 c2 c3 c4 = true ∧ y = yearValOf c1 c2 c3 c4

/-- Claim C6's description of a year candidate: a 4-digit substring matching
`19xx` or `20xx` bounded by word boundaries. -/
def yearCandidate (t : Str) (y : Int) : Prop := candIn none t y

/-- Whitespace characters occurring in the string are plain spaces. -/
def spacesOnlyPlain (l : Str) : Prop := ∀ c ∈ l, isPySpace c = true → c = ' '

/-- No two adjacent whitespace characters. -/
def noAdjWs (l : Str) : Prop :=
  l.Chain' (fun a b => ¬(isPySpace a = true ∧ isPySpace b = true))

/-- The first character (if any) does not satisfy `p`. -/
def headNot (p : Char → Bool) : Str → Prop
  | [] => True
  | c :: _ => p c = false

/-- Structural invariant of `sanitize_filename` output on NUL-free input:
whitespace is single plain spaces, neither end is strippable, no invalid
characters, no NUL bytes. -/
def Sanitized (l : Str) : Prop :=
  spacesOnlyPlain l ∧ noAdjWs l ∧ headNot isPySpace l ∧ headNot isDotSpace l.reverse ∧
  (∀ c ∈ l, translOne c = c) ∧ nulChar ∉ l

/-- Concrete inputs for claim C1: a paper already carrying its computed
name, so planning must be a no-op. -/
def c1Dir : Dir := [("papers").data]

def c1File : PdfFile :=
  ⟨⟨c1Dir, ("2019 - Widget Theory Revisited.pdf").data⟩,
   some ("Widget Theory Revisited").data, ("2019").data⟩

def c1Cfg : PrevCfg :=
  ⟨c1Dir, 140, ("prefix").data, true, [], 2025, fun _ => CrossrefResp.netError, fun _ => []⟩

def dummyItem : PreviewItem :=
  ⟨⟨[], []⟩, [], none, none, none, none, [], [], false⟩

def c1Item : PreviewItem :=
  ((compute_preview c1Cfg (fun _ => false) [c1File]).1).headD dummyItem

/-- Concrete inputs for claim C2: an already-well-named paper whose `ok`
record nevertheless carries a target path. -/
def c2Dir : Dir := [("library").data]

def c2File : PdfFile :=
  ⟨⟨c2Dir, ("2020 - A Study of Things.pdf").data⟩,
   some ("A Study of Things").data, ("2020").data⟩

def c2Cfg : PrevCfg :=
  ⟨c2Dir, 140, ("prefix").data, true, [], 2025, fun _ => CrossrefResp.netError, fun _ => []⟩

def c2Item : PreviewItem :=
  ((compute_preview c2Cfg (fun _ => false) [c2File]).1).headD dummyItem

/-- Concrete inputs for claim C5/C7 witnesses: two files sharing one DOI. -/
def c5Dir : Dir := [("inbox").data]

def c5Text : Str := ("see 10.1234/abcd for details, 2021").data

def c5FileA : PdfFile := ⟨⟨c5Dir, ("a.pdf").data⟩, some ("Deep Results on Widgets").data, c5Text⟩

def c5FileB : PdfFile := ⟨⟨c5Dir, ("b.pdf").data⟩, some ("More Results on Widgets").data, c5Text⟩

def c5Cfg : PrevCfg :=
  ⟨c5Dir, 140, ("prefix").data, false, [], 2025, fun _ => CrossrefResp.netError, fun _ => []⟩

/-- Concrete inputs for claims C8/C10: one applying record, one skipped. -/
def c8ItemGo : PreviewItem :=
  ⟨⟨c5Dir, ("old.pdf").data⟩, ("old.pdf").data, some ⟨c5Dir, ("new.pdf").data⟩,
   none, some ("T").data, some 2020, ("rename").data, ("ready").data, true⟩

def c8ItemStay : PreviewItem :=
  ⟨⟨c5Dir, ("keep.pdf").data⟩, ("keep.pdf").data, none,
   none, none, none, ("skip").data, ("no title found").data, false⟩

def c8Fs : FS := ⟨[⟨c5Dir, ("old.pdf").data⟩, ⟨c5Dir, ("keep.pdf").data⟩]⟩

/-- Concrete inputs for claim C9: no folder argument, `--gui` not given. -/
def c9Args : Args := ⟨none, false, false, true, 140, ("prefix").data, true, []⟩

def c9ArgsBad : Args :=
  ⟨some ("/no/such/dir").data, false, false, true, 140, ("prefix").data, true, []⟩

def c9Env : Env :=
  ⟨fun _ => [("nowhere").data], fun _ => false, fun _ _ => [], fun _ => [],
   fun _ => CrossrefResp.netError, ⟨[]⟩, fun _ _ => false, 2025⟩

theorem applyStep_dry (renameErr : PPath → PPath → Bool) (item : PreviewItem) (fs : FS) :
    applyStep true renameErr item fs =
      if item.apply && item.new_path.isSome then (1, 0, [], fs) else (0, 1, [], fs) := by
  cases hnp : item.new_path <;> cases happ : item.apply <;>
    simp [applyStep, hnp, happ]

theorem applyStep_sum (dry : Bool) (renameErr : PPath → PPath → Bool)
    (item : PreviewItem) (fs : FS) :
    (applyStep dry renameErr item fs).1 + (applyStep dry renameErr item fs).2.1 = 1 := by
  unfold applyStep
  split
  · rfl
  · split
    · rfl
    · split
      · rfl
      · simp only []
        split <;> split <;> rfl

theorem applyStep_not_applied (dry : Bool) (renameErr : PPath → PPath → Bool)
    (item : PreviewItem) (fs : FS) (h : item.apply = false) :
    applyStep dry renameErr item fs = (0, 1, [], fs) := by
  unfold applyStep
  split
  · rfl
  · simp [h]

theorem applyLoop_dry_frame (renameErr : PPath → PPath → Bool) (cancel : Nat → Bool) :
    ∀ (items : List PreviewItem) (idx : Nat) (fs : FS),
      (applyLoop true renameErr cancel idx items fs).2.1 = [] ∧
      (applyLoop true renameErr cancel idx items fs).2.2 = fs := by
  intro items
  induction items with
  | nil => intro idx fs; exact ⟨rfl, rfl⟩
  | cons it rest ih =>
    intro idx fs
    unfold applyLoop
    split
    · exact ⟨rfl, rfl⟩
    · rw [applyStep_dry]
      rcases ih (idx + 1) fs with ⟨h1, h2⟩
      split <;> simp [h1, h2]

theorem applyLoop_dry_counts (renameErr : PPath → PPath → Bool) :
    ∀ (items : List PreviewItem) (idx : Nat) (fs : FS),
      (applyLoop true renameErr (fun _ => false) idx items fs).1.1 =
        items.countP (fun it => it.apply && it.new_path.isSome) ∧
      (applyLoop true renameErr (fun _ => false) idx items fs).1.2 =
        items.countP (fun it => !(it.apply && it.new_path.isSome)) := by
  intro items
  induction items with
  | nil => intro idx fs; exact ⟨rfl, rfl⟩
  | cons it rest ih =>
    intro idx fs
    unfold applyLoop
    rw [applyStep_dry]
    rcases ih (idx + 1) fs with ⟨h1, h2⟩
    by_cases hc : (it.apply && it.new_path.isSome) = true
    · simp only [Bool.false_eq_true, if_false, hc, if_true, List.countP_cons, hc,
        Bool.not_true, h1, h2]
      constructor <;> omega
    · rw [if_neg hc]
      have hc' : (it.apply && it.new_path.isSome) = false := by
        cases h : (it.apply && it.new_path.isSome) <;> simp_all
      simp only [Bool.false_eq_true, if_false, List.countP_cons, h1, h2, hc',
        Bool.not_false, if_true]
      constructor <;> omega

theorem applyLoop_sum (dry : Bool) (renameErr : PPath → PPath → Bool) :
    ∀ (items : List PreviewItem) (idx : Nat) (fs : FS),
      (applyLoop dry renameErr (fun _ => false) idx items fs).1.1 +
        (applyLoop dry renameErr (fun _ => false) idx items fs).1.2 = items.length := by
  intro items
  induction items with
  | nil => intro idx fs; rfl
  | cons it rest ih =>
    intro idx fs
    unfold applyLoop
    simp only [Bool.false_eq_true, if_false]
    have hs := applyStep_sum dry renameErr it fs
    have ht := ih (idx + 1) (applyStep dry renameErr it fs).2.2.2
    simp only [List.length_cons]
    omega

/-- Claim C8: with the dry-run flag set, the Apply Engine performs zero
filesystem mutations (empty mutation trace, filesystem unchanged) for every
input list, however many records have `apply = true` and whatever the
cancellation flag does; and, absent cancellation, every record with
`apply = true` and a target is counted as renamed (succeeded) and every
other record as skipped. -/
theorem C8_dry_run_no_mutation (items : List PreviewItem)
    (renameErr : PPath → PPath → Bool) (cancel : Nat → Bool) (fs : FS) :
    (apply_changes true renameErr cancel items fs).2.1 = [] ∧
    (apply_changes true renameErr cancel items fs).2.2 = fs ∧
    (apply_changes true renameErr (fun _ => false) items fs).1.1 =
      items.countP (fun it => it.apply && it.new_path.isSome) ∧
    (apply_changes true renameErr (fun _ => false) items fs).1.2 =
      items.countP (fun it => !(it.apply && it.new_path.isSome)) := by
  refine ⟨(applyLoop_dry_frame renameErr cancel items 1 fs).1,
    (applyLoop_dry_frame renameErr cancel items 1 fs).2,
    (applyLoop_dry_counts renameErr items 1 fs).1,
    (applyLoop_dry_counts renameErr items 1 fs).2⟩

theorem C8_witness :
    (apply_changes true (fun _ _ => false) (fun _ => false) [c8ItemGo, c8ItemStay] c8Fs).2.1
        = [] ∧
    (apply_changes true (fun _ _ => false) (fun _ => false) [c8ItemGo, c8ItemStay] c8Fs).2.2
        = c8Fs ∧
    (apply_changes true (fun _ _ => false) (fun _ => false) [c8ItemGo, c8ItemStay] c8Fs).1.1
        = [c8ItemGo, c8ItemStay].countP (fun it => it.apply && it.new_path.isSome) ∧
    (apply_changes true (fun _ _ => false) (fun _ => false) [c8ItemGo, c8ItemStay] c8Fs).1.2
        = [c8ItemGo, c8ItemStay].countP (fun it => !(it.apply && it.new_path.isSome)) :=
  C8_dry_run_no_mutation [c8ItemGo, c8ItemStay] (fun _ _ => false) (fun _ => false) c8Fs

/-- Claim C10: without cancellation the Apply Engine's returned pair
satisfies `renamed + skipped = length items` — every record is counted
exactly once — and a record whose move raises a filesystem error is counted
as skipped (increments `(0, 1)`, with no mutation), there being no separate
failure count. -/
theorem C10_counts_partition (dry : Bool) (renameErr : PPath → PPath → Bool)
    (fs fs2 : FS) (items : List PreviewItem) (item : PreviewItem) (np : PPath)
    (happly : item.apply = true) (hnp : item.new_path = some np)
    (herr : renameErr item.pdf (if fs2.existsP np then unique_path fs2 np else np) = true) :
    (apply_changes dry renameErr (fun _ => false) items fs).1.1 +
      (apply_changes dry renameErr (fun _ => false) items fs).1.2 = items.length ∧
    applyStep false renameErr item fs2 = (0, 1, [], fs2) := by
  constructor
  · exact applyLoop_sum dry renameErr items 1 fs
  · unfold applyStep
    rw [hnp]
    simp [happly, herr]

theorem C10_witness :
    (apply_changes false (fun _ _ => true) (fun _ => false) [c8ItemGo, c8ItemStay] c8Fs).1.1 +
      (apply_changes false (fun _ _ => true) (fun _ => false) [c8ItemGo, c8ItemStay] c8Fs).1.2 =
      ([c8ItemGo, c8ItemStay] : List PreviewItem).length ∧
    applyStep false (fun _ _ => true) c8ItemGo c8Fs = (0, 1, [], c8Fs) :=
  C10_counts_partition false (fun _ _ => true) c8Fs c8Fs [c8ItemGo, c8ItemStay] c8ItemGo
    ⟨c5Dir, ("new.pdf").data⟩ (by decide) (by decide) (by decide)

/-- Claim C9 counterexample: with no folder argument (and no `--gui` flag)
`main` launches the GUI instead of exiting with a non-zero status and an
error message, so the claim fails for the "missing" case. -/
theorem C9_cli_counterexample :
    pymain c9Args c9Env = MainOutcome.launchGui ∧
    isExitFail (pymain c9Args c9Env) = false := by
  exact ⟨rfl, rfl⟩

/-- Claim C9, amended: when the positional folder argument is present and
non-empty but does not name a directory, the CLI exits with status 1 and the
"Folder not found" message, before any file is listed, read or renamed (the
error branch precedes the pipeline structurally and carries no filesystem
operations); a missing folder argument instead launches the GUI. -/
theorem C9_cli_amended (args : Args) (env : Env) (f : Str) :
    (args.gui = false → args.folder = some f → f.isEmpty = false →
      env.dirOk (env.resolvePath f) = false →
      pymain args env = MainOutcome.exitFail 1
        (("Folder not found: ").data ++ renderDir (env.resolvePath f))) ∧
    (args.folder = none → pymain args env = MainOutcome.launchGui) := by
  constructor
  · intro hg hf hne hdir
    simp [pymain, run_cli, hg, hf, truthyOptStr, hne, hdir]
  · intro hf
    simp [pymain, hf, truthyOptStr]

theorem C9_witness :
    pymain c9ArgsBad c9Env = MainOutcome.exitFail 1
      (("Folder not found: ").data ++ renderDir (c9Env.resolvePath (("/no/such/dir").data))) :=
  (C9_cli_amended c9ArgsBad c9Env (("/no/such/dir").data)).1 rfl rfl (by decide) rfl

/-- Claim C4 counterexample: with `maxlen = 4 > 0`, stem `"ab"` and extension
`".pdf"`, the clamped name is `"a.pdf"` of length 5 > 4: `max(1, ...)` keeps
one stem character even when the extension alone exceeds the budget. -/
theorem C4_clamp_counterexample :
    (clamp_filename ("ab").data (".pdf").data 4).length = 5 ∧
    ¬((clamp_filename ("ab").data (".pdf").data 4).length ≤ 4) := by
  exact ⟨by decide, by decide⟩

theorem dropWhileRight_eq_rdropWhile (p : Char → Bool) (l : Str) :
    dropWhileRight p l = List.rdropWhile p l := rfl

theorem dropWhileRight_length_le (p : Char → Bool) (l : Str) :
    (dropWhileRight p l).length ≤ l.length := by
  rw [dropWhileRight_eq_rdropWhile]
  exact ( List.rdropWhile_prefix p l).length_le

/-- Claim C4, amended: whenever the configured maximum exceeds the extension
length (`len(ext) < maxlen`, the only regime the counterexample excludes),
the clamped filename has length at most `maxlen` and ends with the full,
unmodified extension. -/
theorem C4_clamp_amended (stem suffix : Str) (maxlen : Nat)
    (h : suffix.length < maxlen) :
    (clamp_filename stem suffix maxlen).length ≤ maxlen ∧
    suffix <:+ clamp_filename stem suffix maxlen := by
  constructor
  · unfold clamp_filename
    simp only [List.length_append]
    have hmsl : max 1 (maxlen - suffix.length) = maxlen - suffix.length := by omega
    split
    · have h1 := dropWhileRight_length_le isPySpace
        ((pyStrip isPySpace stem).take (max 1 (maxlen - suffix.length)))
      have h2 : ((pyStrip isPySpace stem).take (max 1 (maxlen - suffix.length))).length ≤
          max 1 (maxlen - suffix.length) := by
        rw [List.length_take]; omega
      omega
    · rename_i hle
      rw [Nat.not_lt] at hle
      omega
  · exact List.suffix_append _ _

theorem C4_witness :
    (clamp_filename ("a very long name indeed").data (".pdf").data 12).length ≤ 12 ∧
    (".pdf").data <:+ clamp_filename ("a very long name indeed").data (".pdf").data 12 :=
  C4_clamp_amended ("a very long name indeed").data (".pdf").data 12 (by decide)

/-- Claim C2 counterexample: planning a file that already carries its
computed name yields a record with status `ok` whose `new_path` is non-null
(`compute_preview` stores the resolved path even in the `ok` branch), so
"target non-null iff status ∈ {rename, move}" fails on the `ok` side. -/
theorem C2_target_iff_counterexample :
    ((compute_preview c2Cfg (fun _ => false) [c2File]).1).map
      (fun it => (it.status, it.new_path.isSome, it.apply)) =
      [(("ok").data, true, false)] := by decide

theorem previewStep_item_shape (cfg : PrevCfg) (f : PdfFile)
    (cache : List (Str × (Option Str × Option Int))) (rbd : List (Dir × List Str)) :
    ((previewStep cfg f cache rbd).1.status = ("move").data ∧
      (previewStep cfg f cache rbd).1.new_path.isSome = true ∧
      (previewStep cfg f cache rbd).1.apply = true ∧
      (previewStep cfg f cache rbd).1.title = none) ∨
    ((previewStep cfg f cache rbd).1.status = ("skip").data ∧
      (previewStep cfg f cache rbd).1.new_path = none ∧
      (previewStep cfg f cache rbd).1.apply = false ∧
      (previewStep cfg f cache rbd).1.title = none) ∨
    ((previewStep cfg f cache rbd).1.status = ("ok").data ∧
      (previewStep cfg f cache rbd).1.new_path.isSome = true ∧
      (previewStep cfg f cache rbd).1.apply = false) ∨
    ((previewStep cfg f cache rbd).1.status = ("rename").data ∧
      (previewStep cfg f cache rbd).1.apply = true ∧
      ∃ np, (previewStep cfg f cache rbd).1.new_path = some np ∧
        np.name ≠ (previewStep cfg f cache rbd).1.old_name) := by
  unfold previewStep
  simp only []
  split
  · by_cases hu : List.isEmpty cfg.unmatched_dir = true
    · rw [if_pos hu]
      exact Or.inr (Or.inl ⟨rfl, rfl, rfl, rfl⟩)
    · rw [if_neg hu]
      exact Or.inl ⟨rfl, rfl, rfl, rfl⟩
  · split
    · exact Or.inr (Or.inr (Or.inl ⟨rfl, rfl, rfl⟩))
    · rename_i hname
      exact Or.inr (Or.inr (Or.inr ⟨rfl, rfl, _, rfl, hname⟩))

theorem mem_computeLoop_item (cfg : PrevCfg) (cancel : Nat → Bool) :
    ∀ (fs : List PdfFile) (idx : Nat) (cache : List (Str × (Option Str × Option Int)))
      (rbd : List (Dir × List Str)) (item : PreviewItem),
      item ∈ (computeLoop cfg cancel idx cache rbd fs).1 →
      ∃ g c r, item = (previewStep cfg g c r).1 := by
  intro fs
  induction fs with
  | nil =>
    intro idx cache rbd item h
    simp [computeLoop] at h
  | cons f rest ih =>
    intro idx cache rbd item h
    unfold computeLoop at h
    by_cases hc : cancel idx = true
    · rw [if_pos hc] at h
      simp at h
    · rw [if_neg hc] at h
      simp only [List.mem_cons] at h
      rcases h with h | h
      · exact ⟨f, cache, rbd, h⟩
      · exact ih (idx + 1) _ _ item h

/-- Claim C1: a file processed by the Preview Planner down the titled branch
(its record carries a truthy title; `move`/`skip` records carry none) whose
candidate name, resolved against the file's own parent directory, equals its
current name yields a record with status `ok` and `apply = false`, and the
Apply Engine step for such a record performs no filesystem operation: it
increments only the skipped counter, emits no mutation and leaves the
filesystem unchanged. -/
theorem C1_ok_item_is_noop (cfg : PrevCfg) (cancel : Nat → Bool) (pdfs : List PdfFile)
    (item : PreviewItem) (p : PPath) (dry : Bool) (renameErr : PPath → PPath → Bool)
    (fs : FS)
    (hmem : item ∈ (compute_preview cfg cancel pdfs).1)
    (htitle : truthyOptStr item.title = true)
    (hp : item.new_path = some p) (hname : p.name = item.old_name) :
    item.status = ("ok").data ∧ item.apply = false ∧
      applyStep dry renameErr item fs = (0, 1, [], fs) := by
  obtain ⟨g, c, r, rfl⟩ := mem_computeLoop_item cfg cancel pdfs 1 [] [] item hmem
  rcases previewStep_item_shape cfg g c r with
    ⟨_, _, _, ht⟩ | ⟨_, hnone, _, ht⟩ | ⟨hst, _, hap⟩ | ⟨_, _, np, hnp, hne⟩
  · rw [ht] at htitle; exact absurd htitle (by decide)
  · rw [ht] at htitle; exact absurd htitle (by decide)
  · exact ⟨hst, hap, applyStep_not_applied dry renameErr _ fs hap⟩
  · rw [hnp] at hp
    injection hp with hpe
    exact absurd (hpe ▸ hname) hne

theorem C1_witness :
    c1Item.status = ("ok").data ∧ c1Item.apply = false ∧
      applyStep false (fun _ _ => false) c1Item ⟨[]⟩ = (0, 1, [], ⟨[]⟩) :=
  C1_ok_item_is_noop c1Cfg (fun _ => false) [c1File] c1Item
    ⟨c1Dir, ("2019 - Widget Theory Revisited.pdf").data⟩ false (fun _ _ => false) ⟨[]⟩
    (by decide) (by decide) (by decide) (by decide)

/-- Claim C2, amended: every record the Preview Planner produces satisfies
`new_path` non-null iff `status ∈ {rename, move, ok}` (the `ok` branch also
stores the resolved target, unlike the claim's `{rename, move}`), and
`apply` is initially true exactly for `{rename, move}`. -/
theorem C2_target_iff_amended (cfg : PrevCfg) (cancel : Nat → Bool) (pdfs : List PdfFile)
    (item : PreviewItem) (hmem : item ∈ (compute_preview cfg cancel pdfs).1) :
    (item.new_path.isSome = true ↔
      (item.status = ("rename").data ∨ item.status = ("move").data ∨
        item.status = ("ok").data)) ∧
    (item.apply = true ↔
      (item.status = ("rename").data ∨ item.status = ("move").data)) := by
  obtain ⟨g, c, r, rfl⟩ := mem_computeLoop_item cfg cancel pdfs 1 [] [] item hmem
  rcases previewStep_item_shape cfg g c r with
    ⟨hst, hsome, hap, _⟩ | ⟨hst, hnone, hap, _⟩ | ⟨hst, hsome, hap⟩ | ⟨hst, hap, np, hnp, _⟩
  · rw [hst, hsome, hap]
    refine ⟨⟨fun _ => Or.inr (Or.inl rfl), fun _ => rfl⟩,
      ⟨fun _ => Or.inr rfl, fun _ => rfl⟩⟩
  · rw [hst, hnone, hap]
    constructor
    · constructor
      · intro h; exact absurd h (by decide)
      · intro h; rcases h with h | h | h <;> exact absurd h (by decide)
    · constructor
      · intro h; exact absurd h (by decide)
      · intro h; rcases h with h | h <;> exact absurd h (by decide)
  · rw [hst, hsome, hap]
    constructor
    · exact ⟨fun _ => Or.inr (Or.inr rfl), fun _ => rfl⟩
    · constructor
      · intro h; exact absurd h (by decide)
      · intro h; rcases h with h | h <;> exact absurd h (by decide)
  · rw [hst, hap, hnp]
    refine ⟨⟨fun _ => Or.inl rfl, fun _ => rfl⟩, ⟨fun _ => Or.inl rfl, fun _ => rfl⟩⟩

theorem C2_witness :
    (c2Item.new_path.isSome = true ↔
      (c2Item.status = ("rename").data ∨ c2Item.status = ("move").data ∨
        c2Item.status = ("ok").data)) ∧
    (c2Item.apply = true ↔
      (c2Item.status = ("rename").data ∨ c2Item.status = ("move").data)) :=
  C2_target_iff_amended c2Cfg (fun _ => false) [c2File] c2Item (by decide)

theorem lookupStage_cases (cfg : PrevCfg) (doi : Option Str)
    (cache : List (Str × (Option Str × Option Int))) :
    ((lookupStage cfg doi cache).2.2 = [] ∧ (lookupStage cfg doi cache).2.1 = cache) ∨
    (∃ d v, (lookupStage cfg doi cache).2.2 = [Ev.lookup d, Ev.sleep] ∧
      assocFind d cache = none ∧ (lookupStage cfg doi cache).2.1 = (d, v) :: cache) := by
  unfold lookupStage
  cases doi with
  | none => exact Or.inl ⟨rfl, rfl⟩
  | some d =>
    dsimp only
    by_cases hgo : (!d.isEmpty && !cfg.no_crossref) = true
    · rw [if_pos hgo]
      cases hfind : assocFind d cache with
      | some v => exact Or.inl ⟨rfl, rfl⟩
      | none => exact Or.inr ⟨d, _, rfl, hfind, rfl⟩
    · rw [if_neg hgo]
      exact Or.inl ⟨rfl, rfl⟩

theorem previewStep_cache_evs (cfg : PrevCfg) (f : PdfFile)
    (cache : List (Str × (Option Str × Option Int))) (rbd : List (Dir × List Str)) :
    (previewStep cfg f cache rbd).2.1 =
      (lookupStage cfg (extract_doi_from_text f.text) cache).2.1 ∧
    (previewStep cfg f cache rbd).2.2.2 =
      (lookupStage cfg (extract_doi_from_text f.text) cache).2.2 := by
  unfold previewStep
  simp only []
  split
  · by_cases hu : List.isEmpty cfg.unmatched_dir = true
    · rw [if_pos hu]
      exact ⟨rfl, rfl⟩
    · rw [if_neg hu]
      exact ⟨rfl, rfl⟩
  · split <;> exact ⟨rfl, rfl⟩

theorem assocFind_cons (k k' : Str) (v : Option Str × Option Int)
    (c : List (Str × (Option Str × Option Int))) :
    assocFind k ((k', v) :: c) = if k' = k then some v else assocFind k c := rfl

theorem computeLoop_trace (cfg : PrevCfg) (cancel : Nat → Bool) :
    ∀ (fs : List PdfFile) (idx : Nat) (cache : List (Str × (Option Str × Option Int)))
      (rbd : List (Dir × List Str)),
      ∃ ds : List Str, ds.Nodup ∧
        (computeLoop cfg cancel idx cache rbd fs).2 =
          (ds.map fun d => [Ev.lookup d, Ev.sleep]).flatten ∧
        ∀ d ∈ ds, assocFind d cache = none := by
  intro fs
  induction fs with
  | nil =>
    intro idx cache rbd
    exact ⟨[], List.nodup_nil, rfl, by simp⟩
  | cons f rest ih =>
    intro idx cache rbd
    by_cases hc : cancel idx = true
    · refine ⟨[], List.nodup_nil, ?_, by simp⟩
      unfold computeLoop
      rw [if_pos hc]
      rfl
    · have hstep := previewStep_cache_evs cfg f cache rbd
      have hloop : (computeLoop cfg cancel idx cache rbd (f :: rest)).2 =
          (previewStep cfg f cache rbd).2.2.2 ++
            (computeLoop cfg cancel (idx + 1) (previewStep cfg f cache rbd).2.1
              (previewStep cfg f cache rbd).2.2.1 rest).2 := by
        conv_lhs => unfold computeLoop
        rw [if_neg hc]
      rcases lookupStage_cases cfg (extract_doi_from_text f.text) cache with
        ⟨hev, hca⟩ | ⟨d, v, hev, hfind, hca⟩
      · obtain ⟨ds, hnd, htr, hfr⟩ :=
          ih (idx + 1) (previewStep cfg f cache rbd).2.1 (previewStep cfg f cache rbd).2.2.1
        refine ⟨ds, hnd, ?_, ?_⟩
        · rw [hloop, hstep.2, hev, htr, List.nil_append]
        · intro d hd
          have := hfr d hd
          rwa [hstep.1, hca] at this
      · obtain ⟨ds, hnd, htr, hfr⟩ :=
          ih (idx + 1) (previewStep cfg f cache rbd).2.1 (previewStep cfg f cache rbd).2.2.1
        have hfr' : ∀ d' ∈ ds, assocFind d' ((d, v) :: cache) = none := by
          intro d' hd'
          have := hfr d' hd'
          rwa [hstep.1, hca] at this
        have hdnotin : d ∉ ds := by
          intro hm
          have := hfr' d hm
          rw [assocFind_cons, if_pos rfl] at this
          exact Option.noConfusion this
        refine ⟨d :: ds, List.nodup_cons.mpr ⟨hdnotin, hnd⟩, ?_, ?_⟩
        · rw [hloop, hstep.2, hev, htr]
          rfl
        · intro d' hd'
          rcases List.mem_cons.mp hd' with rfl | hm
          · exact hfind
          · have := hfr' d' hm
            rw [assocFind_cons] at this
            split at this
            · exact Option.noConfusion this
            · exact this

theorem nodup_count_le_one (ds : List Str) (h : ds.Nodup) (d : Str) :
    ds.count d ≤ 1 := by
  induction ds with
  | nil => simp
  | cons a t ih =>
    rcases List.nodup_cons.mp h with ⟨hna, hnt⟩
    rw [List.count_cons]
    by_cases hd : a = d
    · subst hd
      have hz : t.count a = 0 := List.count_eq_zero.mpr hna
      simp [hz]
    · have hb : (a == d) = false := by
        simp [hd]
      simp [hb]
      exact ih hnt

theorem count_lookup_join (ds : List Str) (d : Str) :
    ((ds.map fun d' => ([Ev.lookup d', Ev.sleep] : List Ev)).flatten).count (Ev.lookup d) =
      ds.count d := by
  induction ds with
  | nil => rfl
  | cons a t ih =>
    simp only [List.map_cons, List.flatten_cons, List.count_append, ih]
    by_cases h : a = d
    · simp [h, List.count_cons]
      omega
    · simp [h, List.count_cons, Ev.lookup.injEq]

/-- Claim C5: within one planning run the external lookup fires at most once
per distinct DOI — the event trace is a concatenation of `[lookup d, sleep]`
blocks over pairwise-distinct DOIs `ds` (repeated DOIs are answered from the
per-run cache and emit nothing) — so the rate-limiting sleep occurs exactly
after every new lookup and never after a cache hit, and for every DOI the
lookup count is at most 1. -/
theorem C5_lookup_once_and_sleep (cfg : PrevCfg) (cancel : Nat → Bool)
    (pdfs : List PdfFile) :
    ∃ ds : List Str, ds.Nodup ∧
      (compute_preview cfg cancel pdfs).2 =
        (ds.map fun d => [Ev.lookup d, Ev.sleep]).flatten ∧
      ∀ d, ((compute_preview cfg cancel pdfs).2).count (Ev.lookup d) ≤ 1 := by
  unfold compute_preview
  obtain ⟨ds, hnd, htr, _⟩ := computeLoop_trace cfg cancel pdfs 1 [] []
  refine ⟨ds, hnd, htr, fun d => ?_⟩
  rw [htr, count_lookup_join]
  exact nodup_count_le_one ds hnd d

theorem C5_witness :
    ((compute_preview c5Cfg (fun _ => false) [c5FileA, c5FileB]).2).count
      (Ev.lookup (("10.1234/abcd").data)) ≤ 1 := by
  obtain ⟨ds, hnd, htr, hcount⟩ :=
    C5_lookup_once_and_sleep c5Cfg (fun _ => false) [c5FileA, c5FileB]
  exact hcount (("10.1234/abcd").data)

theorem computeLoop_length (cfg : PrevCfg) (cancel : Nat → Bool)
    (hnc : ∀ i, cancel i = false) :
    ∀ (fs : List PdfFile) (idx : Nat) (cache : List (Str × (Option Str × Option Int)))
      (rbd : List (Dir × List Str)),
      ((computeLoop cfg cancel idx cache rbd fs).1).length = fs.length := by
  intro fs
  induction fs with
  | nil => intro idx cache rbd; rfl
  | cons f rest ih =>
    intro idx cache rbd
    unfold computeLoop
    rw [hnc idx]
    simp only [Bool.false_eq_true, if_false, List.length_cons]
    rw [ih]

/-- Claim C7: a bibliographic lookup failure — network exception, non-200
status, or malformed JSON on a 200 — yields `(absent, absent)`: the non-200
case inside `crossref_lookup` itself, the raised cases through the
`try/except` wrapper `resolve_lookup` the planner uses, so the planner still
produces one record per input file (nothing propagates into its result), and
no DOI is ever looked up twice in a run (no retry). -/
theorem C7_lookup_failure_degrades (oracle : Str → CrossrefResp) (d dd : Str)
    (st : Nat) (body : Option CrossrefMsg) (cfg : PrevCfg) (cancel : Nat → Bool)
    (pdfs : List PdfFile)
    (hst : st ≠ 200) (hfail : crossref_lookup (oracle d) = none)
    (hnc : ∀ i, cancel i = false) :
    crossref_lookup CrossrefResp.netError = none ∧
    crossref_lookup (CrossrefResp.resp st body) = some (none, none) ∧
    crossref_lookup (CrossrefResp.resp 200 none) = none ∧
    resolve_lookup oracle d = (none, none) ∧
    ((compute_preview cfg cancel pdfs).1).length = pdfs.length ∧
    ((compute_preview cfg cancel pdfs).2).count (Ev.lookup dd) ≤ 1 := by
  refine ⟨rfl, ?_, rfl, ?_, ?_, ?_⟩
  · simp [crossref_lookup, hst]
  · unfold resolve_lookup
    rw [hfail]
  · exact computeLoop_length cfg cancel hnc pdfs 1 [] []
  · obtain ⟨ds, hnd, htr, _⟩ := computeLoop_trace cfg cancel pdfs 1 [] []
    unfold compute_preview
    rw [htr, count_lookup_join]
    exact nodup_count_le_one ds hnd dd

theorem C7_witness :
    crossref_lookup CrossrefResp.netError = none ∧
    crossref_lookup (CrossrefResp.resp 404 none) = some (none, none) ∧
    crossref_lookup (CrossrefResp.resp 200 none) = none ∧
    resolve_lookup (fun _ => CrossrefResp.netError) (("10.1234/abcd").data) = (none, none) ∧
    ((compute_preview c5Cfg (fun _ => false) [c5FileA, c5FileB]).1).length =
      ([c5FileA, c5FileB] : List PdfFile).length ∧
    ((compute_preview c5Cfg (fun _ => false) [c5FileA, c5FileB]).2).count
      (Ev.lookup (("10.9999/zz").data)) ≤ 1 :=
  C7_lookup_failure_degrades (fun _ => CrossrefResp.netError) (("10.1234/abcd").data)
    (("10.9999/zz").data) 404 none c5Cfg (fun _ => false) [c5FileA, c5FileB]
    (by decide) rfl (fun _ => rfl)

theorem collapseWsAux_spaces (s : Str) :
    ∀ (b : Bool), ∀ c ∈ collapseWsAux b s, isPySpace c = true → c = ' ' := by
  induction s with
  | nil => intro b c hc; simp [collapseWsAux] at hc
  | cons a t ih =>
    intro b c hc hsp
    unfold collapseWsAux at hc
    by_cases h : isPySpace a = true
    · rw [if_pos h] at hc
      cases b with
      | true => exact ih true c hc hsp
      | false =>
        rcases List.mem_cons.mp hc with rfl | hm
        · rfl
        · exact ih true c hm hsp
    · rw [if_neg h] at hc
      rcases List.mem_cons.mp hc with rfl | hm
      · exact absurd hsp h
      · exact ih false c hm hsp

theorem collapseWsAux_mem (s : Str) :
    ∀ (b : Bool), ∀ c ∈ collapseWsAux b s, c = ' ' ∨ c ∈ s := by
  induction s with
  | nil => intro b c hc; simp [collapseWsAux] at hc
  | cons a t ih =>
    intro b c hc
    unfold collapseWsAux at hc
    by_cases h : isPySpace a = true
    · rw [if_pos h] at hc
      cases b with
      | true =>
        rcases ih true c hc with he | hm
        · exact Or.inl he
        · exact Or.inr (List.mem_cons_of_mem a hm)
      | false =>
        rcases List.mem_cons.mp hc with rfl | hm
        · exact Or.inl rfl
        · rcases ih true c hm with he | hm'
          · exact Or.inl he
          · exact Or.inr (List.mem_cons_of_mem a hm')
    · rw [if_neg h] at hc
      rcases List.mem_cons.mp hc with rfl | hm
      · exact Or.inr (List.mem_cons_self c t)
      · rcases ih false c hm with he | hm'
        · exact Or.inl he
        · exact Or.inr (List.mem_cons_of_mem a hm')

theorem collapseWsAux_true_head (s : Str) :
    headNot isPySpace (collapseWsAux true s) := by
  induction s with
  | nil => trivial
  | cons a t ih =>
    unfold collapseWsAux
    by_cases h : isPySpace a = true
    · rw [if_pos h]
      exact ih
    · rw [if_neg h]
      simp only [headNot]
      exact Bool.not_eq_true _ ▸ h

theorem collapseWsAux_noAdj (s : Str) : ∀ (b : Bool), noAdjWs (collapseWsAux b s) := by
  induction s with
  | nil => intro b; simp [collapseWsAux, noAdjWs]
  | cons a t ih =>
    intro b
    unfold collapseWsAux
    by_cases h : isPySpace a = true
    · rw [if_pos h]
      cases b with
      | true => exact ih true
      | false =>
        simp only [Bool.false_eq_true, if_false]
        rw [noAdjWs, List.chain'_cons']
        refine ⟨?_, ih true⟩
        intro y hy
        have h3 := collapseWsAux_true_head t
        cases hh : collapseWsAux true t with
        | nil => rw [hh] at hy; simp at hy
        | cons z zs =>
          rw [hh] at hy
          simp only [List.head?_cons, Option.mem_def, Option.some.injEq] at hy
          subst hy
          rw [hh] at h3
          simp only [headNot] at h3
          intro hcon
          rw [hcon.2] at h3
          exact Bool.noConfusion h3
    · rw [if_neg h]
      rw [noAdjWs, List.chain'_cons']
      refine ⟨?_, ih false⟩
      intro y hy hcon
      exact absurd hcon.1 h

theorem headNot_dropWhile (p : Char → Bool) (l : Str) :
    headNot p (l.dropWhile p) := by
  induction l with
  | nil => trivial
  | cons a t ih =>
    rw [List.dropWhile_cons]
    by_cases h : p a = true
    · rw [if_pos h]; exact ih
    · rw [if_neg h]
      simp only [headNot]
      exact Bool.not_eq_true _ ▸ h

theorem headNot_fix_dropWhile (p : Char → Bool) (l : Str) (h : headNot p l) :
    l.dropWhile p = l := by
  cases l with
  | nil => rfl
  | cons a t =>
    simp only [headNot] at h
    rw [List.dropWhile_cons, if_neg]
    rw [h]
    exact Bool.noConfusion

theorem dropWhileRight_rev (p : Char → Bool) (l : Str) :
    (dropWhileRight p l).reverse = l.reverse.dropWhile p := by
  rw [dropWhileRight, List.reverse_reverse]

theorem headNot_rev_dropWhileRight (p : Char → Bool) (l : Str) :
    headNot p (dropWhileRight p l).reverse := by
  rw [dropWhileRight_rev]
  exact headNot_dropWhile p l.reverse

theorem dropWhileRight_fix (p : Char → Bool) (l : Str) (h : headNot p l.reverse) :
    dropWhileRight p l = l := by
  rw [dropWhileRight, headNot_fix_dropWhile p l.reverse h, List.reverse_reverse]

theorem headNot_of_pre (p : Char → Bool) (l' l : Str) (hp : l' <+: l)
    (h : headNot p l) : headNot p l' := by
  cases l' with
  | nil => trivial
  | cons a t =>
    obtain ⟨t', ht⟩ := hp
    rw [← ht] at h
    exact h

theorem headNot_rev_of_suf (p : Char → Bool) (l' l : Str) (hs : l' <:+ l)
    (h : headNot p l.reverse) : headNot p l'.reverse :=
  headNot_of_pre p l'.reverse l.reverse ( List.reverse_prefix.mpr hs) h

theorem dropWhileRight_pre (p : Char → Bool) (l : Str) : dropWhileRight p l <+: l :=
  dropWhileRight_eq_rdropWhile p l ▸ List.rdropWhile_prefix p l

theorem lastNotSpace_of (l : Str) (hsp : spacesOnlyPlain l)
    (hld : headNot isDotSpace l.reverse) : headNot isPySpace l.reverse := by
  cases hrev : l.reverse with
  | nil => trivial
  | cons a t =>
    rw [hrev] at hld
    simp only [headNot] at hld ⊢
    cases hsa : isPySpace a with
    | false => rfl
    | true =>
      have ha : a ∈ l := by
        rw [← List.mem_reverse, hrev]
        exact List.mem_cons_self a t
      have := hsp a ha hsa
      subst this
      exact absurd hld (by decide)

theorem pyStrip_sub (p : Char → Bool) (l : Str) : (pyStrip p l).Sublist l :=
  ((dropWhileRight_pre p (l.dropWhile p)).sublist).trans (List.dropWhile_suffix p).sublist

theorem pyStrip_headNot (p : Char → Bool) (l : Str) : headNot p (pyStrip p l) :=
  headNot_of_pre p _ _ (dropWhileRight_pre p (l.dropWhile p)) (headNot_dropWhile p l)

theorem pyStrip_lastNot (p : Char → Bool) (l : Str) : headNot p (pyStrip p l).reverse :=
  headNot_rev_dropWhileRight p (l.dropWhile p)

theorem pyStrip_fix (p : Char → Bool) (l : Str) (h1 : headNot p l)
    (h2 : headNot p l.reverse) : pyStrip p l = l := by
  rw [pyStrip, headNot_fix_dropWhile p l h1, dropWhileRight_fix p l h2]

theorem pyStrip_noAdj (p : Char → Bool) (l : Str) (h : noAdjWs l) :
    noAdjWs (pyStrip p l) :=
  List.Chain'.prefix (h.suffix (List.dropWhile_suffix p)) (dropWhileRight_pre p (l.dropWhile p))

theorem pyStrip_eq_dropWhile (l : Str) (hsp : spacesOnlyPlain l)
    (hld : headNot isDotSpace l.reverse) :
    pyStrip isPySpace l = l.dropWhile isPySpace := by
  rw [pyStrip]
  exact dropWhileRight_fix isPySpace (l.dropWhile isPySpace)
    (headNot_rev_of_suf isPySpace _ l (List.dropWhile_suffix isPySpace)
      (lastNotSpace_of l hsp hld))

theorem collapseWsAux_fix (l : Str) (h1 : spacesOnlyPlain l) (h2 : noAdjWs l) :
    collapseWsAux false l = l := by
  induction l with
  | nil => rfl
  | cons a t ih =>
    have h1t : spacesOnlyPlain t := fun c hc => h1 c (List.mem_cons_of_mem a hc)
    have h2t : noAdjWs t := h2.tail
    unfold collapseWsAux
    by_cases h : isPySpace a = true
    · have ha : a = ' ' := h1 a (List.mem_cons_self a t) h
      rw [if_pos h]
      simp only [Bool.false_eq_true, if_false]
      cases t with
      | nil => rw [ha]; rfl
      | cons b u =>
        have hb : isPySpace b = false := by
          have hr := (List.chain'_cons'.mp h2).1 b (by simp)
          cases hsb : isPySpace b with
          | false => rfl
          | true => exact absurd ⟨h, hsb⟩ hr
        have e : collapseWsAux true (b :: u) = collapseWsAux false (b :: u) := by
          unfold collapseWsAux
          rw [hb]
          simp
        rw [e, ih h1t h2t, ha]
    · rw [if_neg h, ih h1t h2t]

theorem translOne_idem (c : Char) : translOne (translOne c) = translOne c := by
  unfold translOne
  by_cases h : INVALID_CHARS.contains c = true
  · rw [if_pos h]
    rw [if_neg (by decide)]
  · rw [if_neg h, if_neg h]

theorem translOne_space (c : Char) (h : isPySpace (translOne c) = true) :
    translOne c = c := by
  unfold translOne at h ⊢
  by_cases hc : INVALID_CHARS.contains c = true
  · rw [if_pos hc] at h
    exact absurd h (by decide)
  · rw [if_neg hc]

theorem translOne_dotSpace (c : Char) (h : isDotSpace (translOne c) = true) :
    translOne c = c := by
  unfold translOne at h ⊢
  by_cases hc : INVALID_CHARS.contains c = true
  · rw [if_pos hc] at h
    exact absurd h (by decide)
  · rw [if_neg hc]

theorem translOne_ne_nul (c : Char) (h : translOne c = nulChar) : c = nulChar := by
  unfold translOne at h
  by_cases hc : INVALID_CHARS.contains c = true
  · rw [if_pos hc] at h
    exact absurd h (by decide)
  · rwa [if_neg hc] at h

theorem map_fix (f : Char → Char) (l : Str) (h : ∀ c ∈ l, f c = c) :
    l.map f = l := by
  induction l with
  | nil => rfl
  | cons a t ih =>
    rw [List.map_cons, h a (List.mem_cons_self a t),
      ih (fun c hc => h c (List.mem_cons_of_mem a hc))]

theorem filter_ne_nul_fix (l : Str) (h : nulChar ∉ l) :
    l.filter (fun c => !(c == nulChar)) = l := by
  induction l with
  | nil => rfl
  | cons a t ih =>
    have ha : a ≠ nulChar := fun he => h (he ▸ List.mem_cons_self a t)
    rw [List.filter_cons, if_pos (by simp [ha]),
      ih (fun hm => h (List.mem_cons_of_mem a hm))]

theorem noAdjWs_of_noSpace (l : Str) (h : ∀ c ∈ l, isPySpace c = false) :
    noAdjWs l := by
  induction l with
  | nil => simp [noAdjWs]
  | cons a t ih =>
    rw [noAdjWs, List.chain'_cons']
    constructor
    · intro y hy hcon
      have ha := h a (List.mem_cons_self a t)
      rw [hcon.1] at ha
      exact Bool.noConfusion ha
    · exact ih (fun c hc => h c (List.mem_cons_of_mem a hc))

theorem sanitized_untitled : Sanitized (("untitled").data) ∧ (("untitled").data : Str) ≠ [] := by
  refine ⟨⟨?_, ?_, ?_, ?_, ?_, ?_⟩, by decide⟩
  · unfold spacesOnlyPlain
    decide
  · exact noAdjWs_of_noSpace (("untitled").data) (by decide)
  · exact (by decide : isPySpace 'u' = false)
  · exact (by decide : isDotSpace 'd' = false)
  · decide
  · decide

theorem sanitize_fix (l : Str) (hs : Sanitized l) (hne : l ≠ []) :
    sanitize_filename l = l := by
  obtain ⟨h1, h2, h3, h4, h5, h6⟩ := hs
  have hlsp : headNot isPySpace l.reverse := lastNotSpace_of l h1 h4
  have e1 : collapseWs l = l := collapseWsAux_fix l h1 h2
  unfold sanitize_filename
  simp only []
  rw [e1, pyStrip_fix isPySpace l h3 hlsp, map_fix translOne l h5,
    dropWhileRight_fix isDotSpace l h4, pyStrip_fix isPySpace l h3 hlsp,
    filter_ne_nul_fix l h6, pyStrip_fix isPySpace l h3 hlsp,
    if_neg (by simp [List.isEmpty_iff, hne])]

theorem sanitize_sanitized (s : Str) (h : nulChar ∉ s) :
    Sanitized (sanitize_filename s) ∧ sanitize_filename s ≠ [] := by
  have c1sp : spacesOnlyPlain (collapseWs s) := fun c hc => collapseWsAux_spaces s false c hc
  have c1na : noAdjWs (collapseWs s) := collapseWsAux_noAdj s false
  have c1nul : nulChar ∉ collapseWs s := by
    intro hm
    rcases collapseWsAux_mem s false nulChar hm with he | hm'
    · exact absurd he (by decide)
    · exact h hm'
  have s1sub := pyStrip_sub isPySpace (collapseWs s)
  have s1sp : spacesOnlyPlain (pyStrip isPySpace (collapseWs s)) :=
    fun c hc => c1sp c (s1sub.subset hc)
  have s1na : noAdjWs (pyStrip isPySpace (collapseWs s)) := pyStrip_noAdj _ _ c1na
  have s1h : headNot isPySpace (pyStrip isPySpace (collapseWs s)) := pyStrip_headNot _ _
  have s1nul : nulChar ∉ pyStrip isPySpace (collapseWs s) := fun hm => c1nul (s1sub.subset hm)
  set M := (pyStrip isPySpace (collapseWs s)).map translOne with hM
  have s2fix : ∀ c ∈ M, translOne c = c := by
    intro c hc
    obtain ⟨c', _, rfl⟩ := List.mem_map.mp hc
    exact translOne_idem c'
  have s2sp : spacesOnlyPlain M := by
    intro c hc hspc
    obtain ⟨c', hc', rfl⟩ := List.mem_map.mp hc
    have e := translOne_space c' hspc
    rw [e] at hspc ⊢
    exact s1sp c' hc' hspc
  have s2na : noAdjWs M := by
    rw [hM, noAdjWs, List.chain'_map]
    refine s1na.imp ?_
    intro a b hr hcon
    have ea := translOne_space a hcon.1
    have eb := translOne_space b hcon.2
    rw [ea] at hcon
    rw [eb] at hcon
    exact hr hcon
  have s2h : headNot isPySpace M := by
    rw [hM]
    cases hL : pyStrip isPySpace (collapseWs s) with
    | nil => trivial
    | cons a t =>
      simp only [List.map_cons, headNot]
      cases hh : isPySpace (translOne a) with
      | false => rfl
      | true =>
        have e := translOne_space a hh
        rw [e] at hh
        rw [hL] at s1h
        simp only [headNot] at s1h
        rw [s1h] at hh
        exact Bool.noConfusion hh
  have s2nul : nulChar ∉ M := by
    intro hm
    obtain ⟨c', hc', he⟩ := List.mem_map.mp hm
    have := translOne_ne_nul c' he
    rw [this] at hc'
    exact s1nul hc'
  set S3 := dropWhileRight isDotSpace M with hS3
  have s3pre : S3 <+: M := dropWhileRight_pre isDotSpace M
  have s3sp : spacesOnlyPlain S3 := fun c hc => s2sp c (s3pre.sublist.subset hc)
  have s3na : noAdjWs S3 := List.Chain'.prefix s2na s3pre
  have s3h : headNot isPySpace S3 := headNot_of_pre isPySpace S3 M s3pre s2h
  have s3ld : headNot isDotSpace S3.reverse := headNot_rev_dropWhileRight isDotSpace M
  have s3fix : ∀ c ∈ S3, translOne c = c := fun c hc => s2fix c (s3pre.sublist.subset hc)
  have s3nul : nulChar ∉ S3 := fun hm => s2nul (s3pre.sublist.subset hm)
  have s3ls : headNot isPySpace S3.reverse := lastNotSpace_of S3 s3sp s3ld
  have e3 : pyStrip isPySpace S3 = S3 := pyStrip_fix isPySpace S3 s3h s3ls
  have e4a : S3.filter (fun c => !(c == nulChar)) = S3 := filter_ne_nul_fix S3 s3nul
  have hsan : sanitize_filename s = if S3.isEmpty then ("untitled").data else S3 := by
    unfold sanitize_filename
    simp only []
    rw [← hM, ← hS3, e3, e4a, e3]
  rw [hsan]
  by_cases he : S3.isEmpty = true
  · rw [if_pos he]
    exact sanitized_untitled
  · rw [if_neg he]
    refine ⟨⟨s3sp, s3na, s3h, s3ld, s3fix, s3nul⟩, ?_⟩
    intro hnil
    rw [hnil] at he
    exact he rfl

/-- Claim C3 counterexample: sanitization is not idempotent on inputs with a
NUL byte before trailing dots: NUL removal happens after the trailing-dot
strip, so `sanitize("a.\x00") = "a."` while `sanitize("a.") = "a"`. -/
theorem C3_idempotent_counterexample :
    sanitize_filename (sanitize_filename (("a.\x00").data)) ≠
      sanitize_filename (("a.\x00").data) := by decide

/-- Claim C3, amended: sanitization is idempotent on every input string
containing no NUL byte (the counterexample's NUL-before-trailing-dot inputs
are the only failures; in particular `sanitize` output is always NUL-free,
so applying `sanitize` twice is always a fixpoint). -/
theorem C3_idempotent_amended (s : Str) (h : nulChar ∉ s) :
    sanitize_filename (sanitize_filename s) = sanitize_filename s := by
  obtain ⟨hs, hne⟩ := sanitize_sanitized s h
  exact sanitize_fix (sanitize_filename s) hs hne

theorem C3_witness :
    sanitize_filename (sanitize_filename (("  A   Title?? ..").data)) =
      sanitize_filename (("  A   Title?? ..").data) :=
  C3_idempotent_amended (("  A   Title?? ..").data) (by decide)

theorem boundBefore_append (prev : Option Char) (xs : Str) (c : Char) (pre : Str) :
    boundBefore prev (xs ++ c :: pre) = boundBefore (some c) pre := by
  unfold boundBefore
  rw [List.getLast?_append_cons]
  cases pre with
  | nil => rfl
  | cons p ps =>
    rw [show (c :: p :: ps).getLast? = (p :: ps).getLast? from List.getLast?_append_cons [c] p ps]
    cases hgl : (p :: ps).getLast? with
    | none => simp at hgl
    | some x => rfl

theorem boundBefore_nil (prev : Option Char) : boundBefore prev [] = prevOk prev := rfl

theorem yearDigits_word (c1 c2 c3 c4 : Char) (h : yearDigitsOk c1 c2 c3 c4 = true) :
    isWordChar c1 = true ∧ isWordChar c2 = true ∧
    isWordChar c3 = true ∧ isWordChar c4 = true := by
  unfold yearDigitsOk at h
  simp only [Bool.and_eq_true, Bool.or_eq_true, beq_iff_eq] at h
  obtain ⟨⟨h12 | h12, h3⟩, h4⟩ := h <;>
    obtain ⟨h1, h2⟩ := h12 <;> subst h1 <;> subst h2 <;>
    exact ⟨by decide, by decide, by simp [isWordChar, Char.isAlphanum, h3],
      by simp [isWordChar, Char.isAlphanum, h4]⟩

theorem yearScan_sound (n : Nat) : ∀ (t : Str), t.length ≤ n →
    ∀ (prev : Option Char) (y : Int), y ∈ yearScan prev t → candIn prev t y := by
  induction n with
  | zero =>
    intro t ht prev y hy
    have : t = [] := List.length_eq_zero.mp (Nat.le_zero.mp ht)
    subst this
    simp [yearScan] at hy
  | succ n ih =>
    intro t ht prev y hy
    rcases t with _ | ⟨c1, _ | ⟨c2, _ | ⟨c3, _ | ⟨c4, rest4⟩⟩⟩⟩
    · simp [yearScan] at hy
    · simp [yearScan] at hy
    · simp [yearScan] at hy
    · simp [yearScan] at hy
    · unfold yearScan at hy
      by_cases hs : (prevOk prev && yearDigitsOk c1 c2 c3 c4 && nextOk rest4) = true
      · rw [if_pos hs] at hy
        simp only [Bool.and_eq_true] at hs
        obtain ⟨⟨hsp, hsd⟩, hsn⟩ := hs
        rcases List.mem_cons.mp hy with rfl | hm
        · exact ⟨[], c1, c2, c3, c4, rest4, rfl, hsp, hsn, hsd, rfl⟩
        · have hlen : rest4.length ≤ n := by
            simp only [List.length_cons] at ht
            omega
          obtain ⟨pre, d1, d2, d3, d4, post, heq, hbb, hna, hdg, hval⟩ :=
            ih rest4 hlen (some c4) y hm
          refine ⟨c1 :: c2 :: c3 :: c4 :: pre, d1, d2, d3, d4, post,
            by rw [heq]; rfl, ?_, hna, hdg, hval⟩
          show boundBefore prev ([c1, c2, c3] ++ c4 :: pre) = true
          rw [boundBefore_append]
          exact hbb
      · rw [if_neg hs] at hy
        have hlen : (c2 :: c3 :: c4 :: rest4).length ≤ n := by
          simp only [List.length_cons] at ht ⊢
          omega
        obtain ⟨pre, d1, d2, d3, d4, post, heq, hbb, hna, hdg, hval⟩ :=
          ih (c2 :: c3 :: c4 :: rest4) hlen (some c1) y hy
        refine ⟨c1 :: pre, d1, d2, d3, d4, post, by rw [heq]; rfl, ?_, hna, hdg, hval⟩
        show boundBefore prev ([] ++ c1 :: pre) = true
        rw [boundBefore_append]
        exact hbb

theorem yearScan_complete (n : Nat) : ∀ (t : Str), t.length ≤ n →
    ∀ (prev : Option Char) (y : Int), candIn prev t y → y ∈ yearScan prev t := by
  induction n with
  | zero =>
    intro t ht prev y hc
    have ht0 : t = [] := List.length_eq_zero.mp (Nat.le_zero.mp ht)
    subst ht0
    obtain ⟨pre, d1, d2, d3, d4, post, heq, -⟩ := hc
    exact absurd heq (by simp)
  | succ n ih =>
    intro t ht prev y hc
    obtain ⟨pre, d1, d2, d3, d4, post, heq, hbb, hna, hdg, hval⟩ := hc
    cases pre with
    | nil =>
      simp only [List.nil_append] at heq
      subst heq
      unfold yearScan
      have hs : (prevOk prev && yearDigitsOk d1 d2 d3 d4 && nextOk post) = true := by
        rw [boundBefore_nil] at hbb
        simp [hbb, hdg, hna]
      rw [if_pos hs, hval]
      exact List.mem_cons_self _ _
    | cons p pre' =>
      subst heq
      rcases pre' with _ | ⟨q2, _ | ⟨q3, _ | ⟨q4, pre''⟩⟩⟩
      · simp only [List.cons_append, List.nil_append] at ht ⊢
        have hbp : isWordChar p = false := by
          unfold boundBefore at hbb
          rw [show ([p] : Str).getLast? = some p from rfl] at hbb
          simpa using hbb
        unfold yearScan
        by_cases hs : (prevOk prev && yearDigitsOk p d1 d2 d3 && nextOk (d4 :: post)) = true
        · exfalso
          simp only [Bool.and_eq_true] at hs
          have hw := (yearDigits_word p d1 d2 d3 hs.1.2).1
          rw [hw] at hbp
          exact Bool.noConfusion hbp
        · rw [if_neg hs]
          apply ih (d1 :: d2 :: d3 :: d4 :: post)
            (by simp only [List.length_cons] at ht ⊢; omega) (some p)
          refine ⟨[], d1, d2, d3, d4, post, rfl, ?_, hna, hdg, hval⟩
          rw [boundBefore_nil]
          simp [prevOk, hbp]
      · simp only [List.cons_append, List.nil_append] at ht ⊢
        have hbq : isWordChar q2 = false := by
          unfold boundBefore at hbb
          rw [show ([p, q2] : Str).getLast? = some q2 from rfl] at hbb
          simpa using hbb
        unfold yearScan
        by_cases hs : (prevOk prev && yearDigitsOk p q2 d1 d2 && nextOk (d3 :: d4 :: post)) = true
        · exfalso
          simp only [Bool.and_eq_true] at hs
          have hw := (yearDigits_word p q2 d1 d2 hs.1.2).2.1
          rw [hw] at hbq
          exact Bool.noConfusion hbq
        · rw [if_neg hs]
          apply ih (q2 :: d1 :: d2 :: d3 :: d4 :: post)
            (by simp only [List.length_cons] at ht ⊢; omega) (some p)
          refine ⟨[q2], d1, d2, d3, d4, post, rfl, ?_, hna, hdg, hval⟩
          unfold boundBefore
          rw [show ([q2] : Str).getLast? = some q2 from rfl]
          simpa using hbq
      · simp only [List.cons_append, List.nil_append] at ht ⊢
        have hbq : isWordChar q3 = false := by
          unfold boundBefore at hbb
          rw [show ([p, q2, q3] : Str).getLast? = some q3 from rfl] at hbb
          simpa using hbb
        unfold yearScan
        by_cases hs : (prevOk prev && yearDigitsOk p q2 q3 d1 &&
            nextOk (d2 :: d3 :: d4 :: post)) = true
        · exfalso
          simp only [Bool.and_eq_true] at hs
          have hw := (yearDigits_word p q2 q3 d1 hs.1.2).2.2.1
          rw [hw] at hbq
          exact Bool.noConfusion hbq
        · rw [if_neg hs]
          apply ih (q2 :: q3 :: d1 :: d2 :: d3 :: d4 :: post)
            (by simp only [List.length_cons] at ht ⊢; omega) (some p)
          refine ⟨[q2, q3], d1, d2, d3, d4, post, rfl, ?_, hna, hdg, hval⟩
          unfold boundBefore
          rw [show ([q2, q3] : Str).getLast? = some q3 from rfl]
          simpa using hbq
      · simp only [List.cons_append, List.nil_append] at ht ⊢
        unfold yearScan
        by_cases hs : (prevOk prev && yearDigitsOk p q2 q3 q4 &&
            nextOk (pre'' ++ d1 :: d2 :: d3 :: d4 :: post)) = true
        · rw [if_pos hs]
          apply List.mem_cons_of_mem
          apply ih (pre'' ++ d1 :: d2 :: d3 :: d4 :: post)
            (by simp only [List.length_cons, List.length_append] at ht ⊢; omega) (some q4)
          refine ⟨pre'', d1, d2, d3, d4, post, rfl, ?_, hna, hdg, hval⟩
          rw [show (p :: q2 :: q3 :: q4 :: pre'' : Str) = [p, q2, q3] ++ q4 :: pre'' from rfl,
            boundBefore_append] at hbb
          exact hbb
        · rw [if_neg hs]
          apply ih (q2 :: q3 :: q4 :: pre'' ++ d1 :: d2 :: d3 :: d4 :: post)
            (by simp only [List.length_cons, List.length_append] at ht ⊢; omega) (some p)
          refine ⟨q2 :: q3 :: q4 :: pre'', d1, d2, d3, d4, post, rfl, ?_, hna, hdg, hval⟩
          rw [show (p :: q2 :: q3 :: q4 :: pre'' : Str) =
            [] ++ p :: (q2 :: q3 :: q4 :: pre'') from rfl, boundBefore_append] at hbb
          exact hbb

theorem yearScan_iff (t : Str) (prev : Option Char) (y : Int) :
    y ∈ yearScan prev t ↔ candIn prev t y :=
  ⟨yearScan_sound t.length t le_rfl prev y, yearScan_complete t.length t le_rfl prev y⟩

theorem pyMax_mem (l : List Int) : ∀ (a : Int), pyMax a l = a ∨ pyMax a l ∈ l := by
  induction l with
  | nil => intro a; exact Or.inl rfl
  | cons b t ih =>
    intro a
    rcases ih (max a b) with he | hm
    · rcases max_choice a b with hab | hab
      · exact Or.inl (by rw [pyMax, List.foldl_cons, ← pyMax, he, hab])
      · exact Or.inr (by rw [pyMax, List.foldl_cons, ← pyMax, he, hab]; exact List.mem_cons_self b t)
    · exact Or.inr (List.mem_cons_of_mem b (by rw [pyMax, List.foldl_cons, ← pyMax]; exact hm))

theorem le_pyMax_self (l : List Int) : ∀ (a : Int), a ≤ pyMax a l := by
  induction l with
  | nil => intro a; exact le_refl a
  | cons b t ih =>
    intro a
    rw [pyMax, List.foldl_cons, ← pyMax]
    exact le_trans (le_max_left a b) (ih (max a b))

theorem le_pyMax_of_mem (l : List Int) : ∀ (a x : Int), x ∈ l → x ≤ pyMax a l := by
  induction l with
  | nil => intro a x hx; simp at hx
  | cons b t ih =>
    intro a x hx
    rw [pyMax, List.foldl_cons, ← pyMax]
    rcases List.mem_cons.mp hx with rfl | hm
    · exact le_trans (le_max_right a x) (le_pyMax_self t (max a x))
    · exact ih (max a b) x hm

/-- Claim C6: year extraction returns `some y` exactly when `y` is a
4-digit `19xx`/`20xx` substring of the text bounded by word boundaries,
within `(1800, currentYear+1]`, and maximal among all such in-range
candidates; it is `none` when no in-range candidate exists. -/
theorem C6_year_extraction_spec (currentYear : Int) (text : Str) (y : Int) :
    extract_year_from_text currentYear text = some y ↔
      (yearCandidate text y ∧ 1800 < y ∧ y ≤ currentYear + 1 ∧
        ∀ z, yearCandidate text z → 1800 < z → z ≤ currentYear + 1 → z ≤ y) := by
  constructor
  · intro h
    unfold extract_year_from_text at h
    by_cases he : text.isEmpty = true
    · rw [if_pos he] at h
      exact Option.noConfusion h
    · rw [if_neg he] at h
      simp only [] at h
      cases hys : yearScan none text with
      | nil => rw [hys] at h; exact Option.noConfusion h
      | cons yr yrs =>
        rw [hys] at h
        cases hk : (yr :: yrs).filter
            (fun z => decide (1800 < z) && decide (z ≤ currentYear + 1)) with
        | nil => rw [hk] at h; exact Option.noConfusion h
        | cons k ks =>
          rw [hk] at h
          injection h with hmax
          have hykept : y ∈ k :: ks := by
            rw [← hmax]
            rcases pyMax_mem ks k with he' | hm
            · rw [he']; exact List.mem_cons_self k ks
            · exact List.mem_cons_of_mem k hm
          rw [← hk] at hykept
          have hmem := List.mem_filter.mp hykept
          have hy1 : (1800 : Int) < y := by
            have := hmem.2
            simp only [Bool.and_eq_true, decide_eq_true_eq] at this
            exact this.1
          have hy2 : y ≤ currentYear + 1 := by
            have := hmem.2
            simp only [Bool.and_eq_true, decide_eq_true_eq] at this
            exact this.2
          have hcand : yearCandidate text y := by
            rw [yearCandidate, ← yearScan_iff]
            rw [hys]
            exact hmem.1
          refine ⟨hcand, hy1, hy2, ?_⟩
          intro z hz hz1 hz2
          have hzin : z ∈ yearScan none text := (yearScan_iff text none z).mpr hz
          have hzkept : z ∈ k :: ks := by
            rw [← hk]
            refine List.mem_filter.mpr ⟨by rw [hys] at hzin; exact hzin, ?_⟩
            simp only [Bool.and_eq_true, decide_eq_true_eq]
            exact ⟨hz1, hz2⟩
          rw [← hmax]
          rcases List.mem_cons.mp hzkept with rfl | hm
          · exact le_pyMax_self ks z
          · exact le_pyMax_of_mem ks k z hm
  · intro ⟨hcand, hy1, hy2, hmaximal⟩
    have hyin : y ∈ yearScan none text := (yearScan_iff text none y).mpr hcand
    have hne : text ≠ [] := by
      intro h0
      rw [h0] at hyin
      simp [yearScan] at hyin
    unfold extract_year_from_text
    rw [if_neg (by simp [List.isEmpty_iff, hne])]
    simp only []
    cases hys : yearScan none text with
    | nil => rw [hys] at hyin; exact absurd hyin (List.not_mem_nil y)
    | cons yr yrs =>
      have hykept : y ∈ (yr :: yrs).filter
          (fun z => decide (1800 < z) && decide (z ≤ currentYear + 1)) := by
        refine List.mem_filter.mpr ⟨by rw [hys] at hyin; exact hyin, ?_⟩
        simp only [Bool.and_eq_true, decide_eq_true_eq]
        exact ⟨hy1, hy2⟩
      cases hk : (yr :: yrs).filter
          (fun z => decide (1800 < z) && decide (z ≤ currentYear + 1)) with
      | nil => rw [hk] at hykept; exact absurd hykept (List.not_mem_nil y)
      | cons k ks =>
        rw [hk] at hykept
        show some (pyMax k ks) = some y
        have hle1 : y ≤ pyMax k ks := by
          rcases List.mem_cons.mp hykept with rfl | hm
          · exact le_pyMax_self ks y
          · exact le_pyMax_of_mem ks k y hm
        have hle2 : pyMax k ks ≤ y := by
          have hmem : pyMax k ks ∈ k :: ks := by
            rcases pyMax_mem ks k with he' | hm
            · rw [he']; exact List.mem_cons_self k ks
            · exact List.mem_cons_of_mem k hm
          rw [← hk] at hmem
          have hmf := List.mem_filter.mp hmem
          have hb := hmf.2
          simp only [Bool.and_eq_true, decide_eq_true_eq] at hb
          refine hmaximal (pyMax k ks) ?_ hb.1 hb.2
          rw [yearCandidate, ← yearScan_iff, hys]
          exact hmf.1
        exact congrArg some (le_antisymm hle2 hle1)

theorem C6_witness :
    yearCandidate (("2019 2023 1750").data) 2023 ∧
    extract_year_from_text 2025 (("2019 2023 1750").data) = some 2023 := by
  have h : extract_year_from_text 2025 (("2019 2023 1750").data) = some 2023 := by decide
  exact ⟨((C6_year_extraction_spec 2025 (("2019 2023 1750").data) 2023).mp h).1, h⟩
